import Mathlib

/-!
Verification of the `pbkdf2.py` module (functions `pbkdf2_hex`, `pbkdf2_bin`,
`_bin_py3` and helpers).  Byte strings are modelled as `List Nat` with every
element below 256; Python `int` parameters (`iterations`, `keylen`) are
modelled as `Int`.  The Python 3 branch of the module (`_bin = _bin_py3`,
`izip = zip`, `xrange = range`, `can_encode = isinstance str`) is the one
embedded; `_bin_py2` is the documented byte-for-byte equivalent for Python 2.
-/

set_option maxRecDepth 100000

namespace Pbkdf2

/-! ### SHA-1 (the module's default `hashfunc`, `hashlib.sha1`) -/

/-- Rotate a 32-bit word (`x < 2^32`) left by `n` bits. -/
def rotl32 (n x : Nat) : Nat :=
  ((x <<< n) % 2 ^ 32) ||| (x >>> (32 - n))

/-- Big-endian 32-bit words from a byte stream (groups of 4 bytes). -/
def wordsOf : List Nat → List Nat
  | b0 :: b1 :: b2 :: b3 :: rest =>
      (((b0 * 256 + b1) * 256 + b2) * 256 + b3) :: wordsOf rest
  | _ => []

/-- Big-endian 8-byte encoding of `n` (the SHA-1 length field). -/
def be64 (n : Nat) : List Nat :=
  [n / 2 ^ 56 % 256, n / 2 ^ 48 % 256, n / 2 ^ 40 % 256, n / 2 ^ 32 % 256,
   n / 2 ^ 24 % 256, n / 2 ^ 16 % 256, n / 2 ^ 8 % 256, n % 256]

/-- Big-endian 4-byte serialization of a 32-bit word. -/
def word32Bytes (w : Nat) : List Nat :=
  [w / 2 ^ 24 % 256, w / 2 ^ 16 % 256, w / 2 ^ 8 % 256, w % 256]

/-- SHA-1 message schedule: extend the 16 block words to 80.  `acc` holds the
words produced so far in reverse order, so `acc.getD 2 0` is `W[i-3]`,
`acc.getD 7 0` is `W[i-8]`, `acc.getD 13 0` is `W[i-14]` and
`acc.getD 15 0` is `W[i-16]`. -/
def extendSchedule : Nat → List Nat → List Nat
  | 0, acc => acc.reverse
  | n + 1, acc =>
      let w := rotl32 1 ((((acc.getD 2 0) ^^^ (acc.getD 7 0)) ^^^ (acc.getD 13 0)) ^^^ (acc.getD 15 0))
      extendSchedule n (w :: acc)

/-- SHA-1 round function, selected by the round index. -/
def sha1F (i b c d : Nat) : Nat :=
  if i < 20 then (b &&& c) ||| ((b ^^^ 0xFFFFFFFF) &&& d)
  else if i < 40 then (b ^^^ c) ^^^ d
  else if i < 60 then ((b &&& c) ||| (b &&& d)) ||| (c &&& d)
  else (b ^^^ c) ^^^ d

/-- SHA-1 round constant, selected by the round index. -/
def sha1K (i : Nat) : Nat :=
  if i < 20 then 0x5A827999
  else if i < 40 then 0x6ED9EBA1
  else if i < 60 then 0x8F1BBCDC
  else 0xCA62C1D6

/-- One SHA-1 round: state `(a,b,c,d,e)` updated with round index `i` and
schedule word `w`. -/
def sha1Round (st : Nat × Nat × Nat × Nat × Nat) (iw : Nat × Nat) :
    Nat × Nat × Nat × Nat × Nat :=
  let a := st.1
  let b := st.2.1
  let c := st.2.2.1
  let d := st.2.2.2.1
  let e := st.2.2.2.2
  let t := (rotl32 5 a + sha1F iw.1 b c d + e + sha1K iw.1 + iw.2) % 2 ^ 32
  (t, a, rotl32 30 b, c, d)

/-- The five SHA-1 chaining words. -/
structure Sha1State where
  h0 : Nat
  h1 : Nat
  h2 : Nat
  h3 : Nat
  h4 : Nat

/-- SHA-1 compression of one 64-byte block into the chaining state. -/
def sha1Compress (st : Sha1State) (block : List Nat) : Sha1State :=
  let w := extendSchedule 64 (wordsOf block).reverse
  let r := w.enum.foldl sha1Round (st.h0, st.h1, st.h2, st.h3, st.h4)
  ⟨(st.h0 + r.1) % 2 ^ 32, (st.h1 + r.2.1) % 2 ^ 32, (st.h2 + r.2.2.1) % 2 ^ 32,
   (st.h3 + r.2.2.2.1) % 2 ^ 32, (st.h4 + r.2.2.2.2) % 2 ^ 32⟩

/-- Merkle–Damgård padding: `0x80`, zeros to 56 mod 64, then the 64-bit
big-endian bit length. -/
def sha1Pad (msg : List Nat) : List Nat :=
  msg ++ 0x80 :: (List.replicate ((119 - msg.length % 64) % 64) 0 ++ be64 (8 * msg.length))

/-- Split a byte stream into 64-byte chunks (`fuel` bounds the recursion; it is
called with the list length, which suffices since each step drops 64 > 0
elements from a non-empty list). -/
def chunks : Nat → List Nat → List (List Nat)
  | 0, _ => []
  | _, [] => []
  | n + 1, l => l.take 64 :: chunks n (l.drop 64)

/-- The SHA-1 initialization vector. -/
def sha1Init : Sha1State :=
  ⟨0x67452301, 0xEFCDAB89, 0x98BADCFE, 0x10325476, 0xC3D2E1F0⟩

/-- Full SHA-1: pad, compress each 64-byte block, serialize the state. -/
def sha1Hash (msg : List Nat) : List Nat :=
  let padded := sha1Pad msg
  let st := (chunks padded.length padded).foldl sha1Compress sha1Init
  word32Bytes st.h0 ++ word32Bytes st.h1 ++ word32Bytes st.h2 ++
    word32Bytes st.h3 ++ word32Bytes st.h4

/-! ### Hash-algorithm interface and HMAC

`pbkdf2_bin` accepts any `hashlib` constructor (`hashfunc`); a hashlib hash
exposes its digest size and block size, its digests have exactly
`digest_size` bytes, and `digest_size` is positive.  Those interface
guarantees are carried as fields. -/

structure HashFunc where
  digestSize : Nat
  blockSize : Nat
  hash : List Nat → List Nat
  hash_length : ∀ m, (hash m).length = digestSize
  digestSize_pos : 0 < digestSize

/-- Digest length of SHA-1 is 20 bytes. -/
theorem sha1Hash_length (m : List Nat) : (sha1Hash m).length = 20 := by
  simp [sha1Hash, word32Bytes]

/-- SHA-1 (`hashlib.sha1`) as a `HashFunc` (digest size 20, block size 64). -/
def sha1 : HashFunc :=
  ⟨20, 64, sha1Hash, sha1Hash_length, by decide⟩

/-- HMAC key preparation: a key longer than the block size is hashed, then the
key is zero-padded to the block size (per the `hmac` module / RFC 2104). -/
def hmacKey (hf : HashFunc) (key : List Nat) : List Nat :=
  let k := if hf.blockSize < key.length then hf.hash key else key
  k ++ List.replicate (hf.blockSize - k.length) 0

/-- HMAC: `hmac.new(key, None, hashfunc)` followed by `.copy()`, `.update(msg)`,
`.digest()` — i.e. `HMAC(key, msg)`:
`hash(okey ++ hash(ikey ++ msg))` with `okey`/`ikey` the prepared key XORed
with `0x5c`/`0x36`. -/
def hmac (hf : HashFunc) (key msg : List Nat) : List Nat :=
  let k := hmacKey hf key
  hf.hash ((k.map fun b => b ^^^ 0x5c) ++ hf.hash ((k.map fun b => b ^^^ 0x36) ++ msg))

theorem hmac_length (hf : HashFunc) (key msg : List Nat) :
    (hmac hf key msg).length = hf.digestSize := hf.hash_length _

/-! ### Python- and module-level helpers -/

/-- Line 63, `_pack_int = Struct(">I").pack`: 4-byte big-endian encoding of the block
index (indices here stay far below `2^32`, where `struct` would fail). -/
def _pack_int (n : Nat) : List Nat :=
  [n / 2 ^ 24 % 256, n / 2 ^ 16 % 256, n / 2 ^ 8 % 256, n % 256]

/-- A text codec, as selected by the `encoding` argument: the map from the
code points of a text string to its encoded bytes. -/
def Encoding : Type := List Nat → List Nat

/-- UTF-8 encoding of one Unicode code point (scalar values; Python raises on
surrogates, which never arise in the inputs considered here). -/
def utf8Char (c : Nat) : List Nat :=
  if c < 0x80 then [c]
  else if c < 0x800 then [0xC0 ||| (c >>> 6), 0x80 ||| (c &&& 0x3F)]
  else if c < 0x10000 then
    [0xE0 ||| (c >>> 12), 0x80 ||| ((c >>> 6) &&& 0x3F), 0x80 ||| (c &&& 0x3F)]
  else
    [0xF0 ||| (c >>> 18), 0x80 ||| ((c >>> 12) &&& 0x3F),
     0x80 ||| ((c >>> 6) &&& 0x3F), 0x80 ||| (c &&& 0x3F)]

/-- The `'utf-8'` codec (the module's default `encoding`). -/
def utf8 : Encoding := fun cps => (cps.map utf8Char).flatten

/-- The `'latin-1'` codec: code points below 256 map to themselves (Python
raises beyond that range; it is only applied below 256 here). -/
def latin1 : Encoding := fun cps => cps

/-- An argument that Python sees as either `bytes` or a text `str` (a list of
Unicode code points). -/
inductive PyData where
  | bytes (b : List Nat)
  | text (cps : List Nat)
deriving DecidableEq

/-- Python 3 `can_encode`: `isinstance(s, str)`. -/
def can_encode : PyData → Bool
  | .bytes _ => false
  | .text _ => true

/-- Lines 84–87: `if can_encode(x): x = x.encode(encoding)`. -/
def toBytes (encoding : Encoding) (d : PyData) : List Nat :=
  match d with
  | .bytes b => b
  | .text cps => encoding cps

/-- Python `xrange(a, b)` on ints (`a ≤ b` here always has `a = 1`). -/
def pyRange (a : Nat) (b : Int) : List Nat :=
  List.range' a (b - a).toNat

/-- Python slice `l[:k]`: for `k ≥ 0` the first `k` elements, for `k < 0` all
but the last `-k` elements. -/
def pySliceTo (l : List Nat) (k : Int) : List Nat :=
  if k < 0 then l.take (l.length - (-k).toNat) else l.take k.toNat

/-- Byte-wise XOR, `starmap(xor, izip(rv, u))`: byte-wise XOR of two byte strings. -/
def xorBytes (a b : List Nat) : List Nat :=
  List.zipWith (fun x y => x ^^^ y) a b

/-! ### The module's functions -/

/-- Lines 102–104, the XOR-folding loop of `_bin_py3`:
`for i in xrange(iterations - 1): u = _pseudorandom(u); rv = xor(rv, u)`.
State is `(count, rv, u)`. -/
def innerLoop (prf : List Nat → List Nat) : Nat → List Nat → List Nat → List Nat
  | 0, rv, _ => rv
  | n + 1, rv, u =>
      let u2 := prf u
      innerLoop prf n (xorBytes rv u2) u2

/-- Lines 101–105, the body of the block loop of `_bin_py3` for one block
index: `rv = u = _pseudorandom(salt + _pack_int(block))` followed by the
XOR-folding loop (`xrange(iterations - 1)` is empty when `iterations ≤ 1`). -/
def codeBlock (prf : List Nat → List Nat) (salt : List Nat) (block : Nat)
    (iterations : Int) : List Nat :=
  let u := prf (salt ++ _pack_int block)
  innerLoop prf (iterations - 1).toNat u u

/-- Function `_bin_py3(mac, salt, blocks_len, iterations)` (lines 93–106): the PRF
`_pseudorandom` is `mac.copy(); update(x); digest()`, i.e. `HMAC(data, x)`,
passed here as `prf`.  `buf` accumulates the blocks for
`block in xrange(1, blocks_len)`. -/
def _bin_py3 (prf : List Nat → List Nat) (salt : List Nat) (blocks_len : Int)
    (iterations : Int) : List Nat :=
  (pyRange 1 blocks_len).foldl (fun buf block => buf ++ codeBlock prf salt block iterations) []

/-- Line 123, `_bin = _bin_py3` (Python 3 branch). -/
def _bin (prf : List Nat → List Nat) (salt : List Nat) (blocks_len : Int)
    (iterations : Int) : List Nat :=
  _bin_py3 prf salt blocks_len iterations

/-- Line 89: `blocks_len = -(-keylen // mac.digest_size) + 1` with Python
floor division. -/
def blocks_len (keylen : Int) (ds : Nat) : Int :=
  -((-keylen).fdiv ds) + 1

/-- Function `pbkdf2_bin(data, salt, iterations, keylen, hashfunc, encoding)`
(lines 76–90): default the hash to SHA-1, encode text arguments, key HMAC
with `data`, and return `_bin(mac, salt, blocks_len, iterations)[:keylen]`. -/
def pbkdf2_bin (data salt : PyData) (iterations keylen : Int)
    (hashfunc : Option HashFunc) (encoding : Encoding) : List Nat :=
  let hf := hashfunc.getD sha1
  let d := toBytes encoding data
  let s := toBytes encoding salt
  pySliceTo (_bin (fun x => hmac hf d x) s (blocks_len keylen hf.digestSize) iterations) keylen

/-- One lowercase hex digit (ASCII code) for a value below 16. -/
def hexDigit (d : Nat) : Nat :=
  if d < 10 then 48 + d else 87 + d

/-- Hex encoding, `codecs.encode(result, 'hex')`: two lowercase hex characters per byte. -/
def hexEncode (l : List Nat) : List Nat :=
  (l.map fun b => [hexDigit (b / 16), hexDigit (b % 16)]).flatten

/-- Function `pbkdf2_hex(data, salt, iterations, keylen, hashfunc, encoding)`
(lines 66–73): hex-encodes `pbkdf2_bin(data, salt, iterations, keylen,
hashfunc, encoding='utf-8')` — the call on line 70 passes the literal
`encoding='utf-8'`, not the `encoding` parameter. -/
def pbkdf2_hex (data salt : PyData) (iterations keylen : Int)
    (hashfunc : Option HashFunc) (encoding : Encoding) : List Nat :=
  hexEncode (pbkdf2_bin data salt iterations keylen hashfunc utf8)

/-! ### Specification-side definitions (from the spec's wording, for
comparison with the code's computation) -/

/-- Spec §4.2 iterate sequence: `U[1] = prf(seed)`, `U[j] = prf(U[j-1])`.
Here `specU prf seed j` is `U[j+1]` (0-based). -/
def specU (prf : List Nat → List Nat) (seed : List Nat) : Nat → List Nat
  | 0 => prf seed
  | j + 1 => prf (specU prf seed j)

/-- Spec §4.2 block value: `U[1] XOR U[2] XOR … XOR U[iterations]`,
written as a left fold of byte-wise XOR starting from `U[1]`. -/
def specBlock (prf : List Nat → List Nat) (seed : List Nat) (iterations : Nat) :
    List Nat :=
  (List.range (iterations - 1)).foldl
    (fun rv j => xorBytes rv (specU prf seed (j + 1))) (specU prf seed 0)

/-! ### Helper lemmas -/

theorem foldl_append_eq_flatten (g : Nat → List Nat) (l : List Nat) (acc : List Nat) :
    l.foldl (fun buf b => buf ++ g b) acc = acc ++ (l.map g).flatten := by
  induction l generalizing acc with
  | nil => simp
  | cons x xs ih => simp [ih, List.append_assoc]

theorem innerLoop_length (prf : List Nat → List Nat) (ds : Nat)
    (hprf : ∀ x, (prf x).length = ds) :
    ∀ (n : Nat) (rv u : List Nat), rv.length = ds → (innerLoop prf n rv u).length = ds := by
  intro n
  induction n with
  | zero => intro rv u h; simpa [innerLoop] using h
  | succ m ih =>
      intro rv u h
      show (innerLoop prf m (xorBytes rv (prf u)) (prf u)).length = ds
      exact ih _ _ (by simp [xorBytes, h, hprf])

theorem codeBlock_length (prf : List Nat → List Nat) (ds : Nat)
    (hprf : ∀ x, (prf x).length = ds) (salt : List Nat) (block : Nat)
    (iterations : Int) : (codeBlock prf salt block iterations).length = ds :=
  innerLoop_length prf ds hprf _ _ _ (hprf _)

theorem flatten_map_length (g : Nat → List Nat) (ds : Nat)
    (hg : ∀ i, (g i).length = ds) (l : List Nat) :
    ((l.map g).flatten).length = ds * l.length := by
  induction l with
  | nil => simp
  | cons x xs ih =>
      simp [ih, hg, Nat.mul_succ]
      omega

/-- Line 89 arithmetic: for `keylen ≥ 0` and positive digest size,
`-(-keylen // ds) + 1` is `⌈keylen / ds⌉ + 1`. -/
theorem blocks_len_eq (k : Int) (ds : Nat) (hk : 0 ≤ k) (hds : 0 < ds) :
    blocks_len k ds = (((k.toNat + ds - 1) / ds : Nat) : Int) + 1 := by
  obtain ⟨d, rfl⟩ : ∃ d, ds = d + 1 := ⟨ds - 1, by omega⟩
  obtain ⟨m, rfl⟩ : ∃ m : Nat, k = (m : Int) := ⟨k.toNat, by omega⟩
  unfold blocks_len
  cases m with
  | zero =>
      have h1 : (d : Nat) / (d + 1) = 0 := Nat.div_eq_of_lt (by omega)
      simp [Int.zero_fdiv, h1]
  | succ n =>
      have h1 : -((n + 1 : Nat) : Int) = Int.negSucc n := rfl
      have h2 : (Int.negSucc n).fdiv ((d + 1 : Nat) : Int) = Int.negSucc (n / (d + 1)) := rfl
      have h3 : (((n + 1 : Nat) : Int)).toNat = n + 1 := rfl
      rw [h1, h2, h3]
      have h4 : n + 1 + (d + 1) - 1 = n + (d + 1) := by omega
      rw [h4, Nat.add_div_right _ (by omega)]
      generalize n / (d + 1) = q
      rw [Int.neg_negSucc]

/-- Ceiling-division lower bound: `m ≤ ds * ⌈m / ds⌉`. -/
theorem le_mul_ceil (m ds : Nat) (hds : 0 < ds) : m ≤ ds * ((m + ds - 1) / ds) := by
  have h := Nat.div_add_mod (m + ds - 1) ds
  have hlt : (m + ds - 1) % ds < ds := Nat.mod_lt _ hds
  generalize hq : ds * ((m + ds - 1) / ds) = t at *
  omega

/-- Normal form of `pbkdf2_bin` for `keylen ≥ 0`: the blocks with indices
`1, …, ⌈keylen / digest_size⌉` in increasing order, concatenated, truncated
to the first `keylen` bytes. -/
theorem pbkdf2_bin_eq (data salt : PyData) (iterations keylen : Int)
    (hashfunc : Option HashFunc) (encoding : Encoding) (hk : 0 ≤ keylen) :
    pbkdf2_bin data salt iterations keylen hashfunc encoding =
      ((List.range' 1
          ((keylen.toNat + (hashfunc.getD sha1).digestSize - 1) /
            (hashfunc.getD sha1).digestSize)).map
        (fun i =>
          codeBlock (fun x => hmac (hashfunc.getD sha1) (toBytes encoding data) x)
            (toBytes encoding salt) i iterations)).flatten.take keylen.toNat := by
  have hds := (hashfunc.getD sha1).digestSize_pos
  simp only [pbkdf2_bin, _bin, _bin_py3]
  rw [blocks_len_eq keylen _ hk hds]
  rw [foldl_append_eq_flatten]
  unfold pyRange
  have h1 : ∀ c : Nat, (((c : Nat) : Int) + 1 - ((1 : Nat) : Int)).toNat = c := by
    intro c
    omega
  rw [h1]
  unfold pySliceTo
  rw [if_neg (by omega)]
  simp

/-- The derived key has exactly `keylen` bytes when `keylen ≥ 0`. -/
theorem pbkdf2_bin_length (data salt : PyData) (iterations keylen : Int)
    (hashfunc : Option HashFunc) (encoding : Encoding) (hk : 0 ≤ keylen) :
    (pbkdf2_bin data salt iterations keylen hashfunc encoding).length = keylen.toNat := by
  rw [pbkdf2_bin_eq data salt iterations keylen hashfunc encoding hk]
  rw [List.length_take]
  rw [flatten_map_length _ (hashfunc.getD sha1).digestSize
    (fun i => codeBlock_length _ _ (fun x => hmac_length _ _ _) _ _ _) _]
  rw [List.length_range']
  have := le_mul_ceil keylen.toNat (hashfunc.getD sha1).digestSize
    (hashfunc.getD sha1).digestSize_pos
  omega

/-- A negative `keylen` yields the empty byte string (no error is raised). -/
theorem pbkdf2_bin_neg (data salt : PyData) (iterations keylen : Int)
    (hashfunc : Option HashFunc) (encoding : Encoding) (hk : keylen < 0) :
    pbkdf2_bin data salt iterations keylen hashfunc encoding = [] := by
  have h1 : 0 ≤ (-keylen).fdiv ((hashfunc.getD sha1).digestSize : Int) :=
    Int.fdiv_nonneg (by omega) (by omega)
  have h2 : (blocks_len keylen (hashfunc.getD sha1).digestSize - (1 : Nat)).toNat = 0 := by
    unfold blocks_len at *
    omega
  simp only [pbkdf2_bin, _bin, _bin_py3, pyRange]
  rw [h2]
  simp [pySliceTo]

/-- The XOR-folding loop computes the fold of the spec's `U` sequence: starting
from accumulator `rv` and current value `U[j+1]`, running `n` more steps XORs
in `U[j+2], …, U[j+n+1]`. -/
theorem innerLoop_spec (prf : List Nat → List Nat) (seed : List Nat) :
    ∀ (n j : Nat) (rv : List Nat),
      innerLoop prf n rv (specU prf seed j) =
        (List.range n).foldl (fun acc i => xorBytes acc (specU prf seed (j + 1 + i))) rv := by
  intro n
  induction n with
  | zero => intro j rv; simp [innerLoop]
  | succ m ih =>
      intro j rv
      show innerLoop prf m (xorBytes rv (prf (specU prf seed j))) (prf (specU prf seed j)) = _
      have hu : prf (specU prf seed j) = specU prf seed (j + 1) := rfl
      rw [hu, ih (j + 1)]
      simp only [List.range_succ_eq_map, List.foldl_cons, List.foldl_map]
      congr 1
      funext acc i
      exact congrArg (xorBytes acc) (congrArg (specU prf seed) (by omega))

/-! ### Claims -/

/-- C1: for every password, salt, index ≥ 1 and iterations ≥ 1, the block the
code computes (`codeBlock`, the body of the block loop of `_bin_py3`) equals
the byte-wise XOR fold `U[1] XOR U[2] XOR … XOR U[iterations]` where
`U[1] = PRF(salt ‖ big_endian_u32(index))`, `U[j] = PRF(U[j-1])`, and the PRF
is HMAC keyed by the password over the chosen hash. -/
theorem claim_C1 (hf : HashFunc) (password salt : List Nat) (index : Nat)
    (iterations : Int) (hidx : 1 ≤ index) (hit : 1 ≤ iterations) :
    codeBlock (fun x => hmac hf password x) salt index iterations =
      specBlock (fun x => hmac hf password x) (salt ++ _pack_int index)
        iterations.toNat := by
  unfold specBlock
  show innerLoop (fun x => hmac hf password x) (iterations - 1).toNat
      (specU (fun x => hmac hf password x) (salt ++ _pack_int index) 0)
      (specU (fun x => hmac hf password x) (salt ++ _pack_int index) 0) = _
  rw [innerLoop_spec (fun x => hmac hf password x) (salt ++ _pack_int index)
    (iterations - 1).toNat 0]
  have h0 : (iterations - 1).toNat = iterations.toNat - 1 := by omega
  rw [h0]
  congr 1
  funext acc i
  exact congrArg (xorBytes acc)
    (congrArg (specU (fun x => hmac hf password x) (salt ++ _pack_int index)) (by omega))

theorem claim_C1_witness :
    1 ≤ 1 ∧ (1 : Int) ≤ 2 ∧
    codeBlock (fun x => hmac sha1 [] x) [] 1 2 =
      specBlock (fun x => hmac sha1 [] x) ([] ++ _pack_int 1) (2 : Int).toNat :=
  ⟨by decide, by decide, claim_C1 sha1 [] [] 1 2 (by decide) (by decide)⟩

/-- C2: for every `keylen ≥ 0`, the orchestrator's block-index list is exactly
`[1, …, ⌈keylen / digest_size⌉]` (that many blocks, indices strictly
increasing from 1, zero blocks when `keylen = 0`), the result is the
concatenation of those blocks in index order truncated to the first `keylen`
bytes, and the returned key has exactly `keylen` bytes. -/
theorem claim_C2 (data salt : PyData) (iterations keylen : Int)
    (hashfunc : Option HashFunc) (encoding : Encoding) (hk : 0 ≤ keylen) :
    pyRange 1 (blocks_len keylen (hashfunc.getD sha1).digestSize) =
      List.range' 1 ((keylen.toNat + (hashfunc.getD sha1).digestSize - 1) /
        (hashfunc.getD sha1).digestSize) ∧
    pbkdf2_bin data salt iterations keylen hashfunc encoding =
      ((List.range' 1 ((keylen.toNat + (hashfunc.getD sha1).digestSize - 1) /
          (hashfunc.getD sha1).digestSize)).map
        (fun i =>
          codeBlock (fun x => hmac (hashfunc.getD sha1) (toBytes encoding data) x)
            (toBytes encoding salt) i iterations)).flatten.take keylen.toNat ∧
    (pbkdf2_bin data salt iterations keylen hashfunc encoding).length = keylen.toNat := by
  refine ⟨?_, pbkdf2_bin_eq _ _ _ _ _ _ hk, pbkdf2_bin_length _ _ _ _ _ _ hk⟩
  rw [blocks_len_eq keylen _ hk (hashfunc.getD sha1).digestSize_pos]
  unfold pyRange
  have h1 : ∀ c : Nat, (((c : Nat) : Int) + 1 - ((1 : Nat) : Int)).toNat = c := by
    intro c
    omega
  rw [h1]

theorem claim_C2_witness :
    (0 : Int) ≤ 0 ∧
    (pyRange 1 (blocks_len 0 sha1.digestSize) = List.range' 1 0 ∧
     pbkdf2_bin (.bytes []) (.bytes []) 1 0 (some sha1) utf8 =
       ((List.range' 1 0).map (fun i => codeBlock (fun x => hmac sha1 [] x) [] i 1)).flatten.take 0 ∧
     (pbkdf2_bin (.bytes []) (.bytes []) 1 0 (some sha1) utf8).length = 0) :=
  ⟨by decide, claim_C2 (.bytes []) (.bytes []) 1 0 (some sha1) utf8 (by decide)⟩

/-- C3 as stated is false: with `iterations = 0 < 1` the call does not fail
(the module defines no `InvalidParameter` and performs no validation) — it
hashes and returns a full 20-byte derived key. -/
theorem claim_C3_counterexample :
    (0 : Int) < 1 ∧
    pbkdf2_bin (.bytes []) (.bytes []) 0 20 none utf8 =
      [30, 67, 122, 28, 121, 215, 91, 230, 30, 145, 20, 29, 174, 32, 175, 252,
       72, 146, 204, 153] ∧
    pbkdf2_bin (.bytes []) (.bytes []) 0 20 none utf8 ≠ [] := by
  refine ⟨by decide, by decide, by decide⟩

/-- C3 amended: the code never raises for `iterations < 1` or `keylen < 0`;
instead `iterations < 1` behaves exactly like `iterations = 1` (the folding
loop body runs `max(0, iterations - 1)` times) and `keylen < 0` returns the
empty byte string. -/
theorem claim_C3 (data salt : PyData) (iterations keylen : Int)
    (hashfunc : Option HashFunc) (encoding : Encoding) :
    (iterations < 1 →
      pbkdf2_bin data salt iterations keylen hashfunc encoding =
        pbkdf2_bin data salt 1 keylen hashfunc encoding) ∧
    (keylen < 0 → pbkdf2_bin data salt iterations keylen hashfunc encoding = []) := by
  constructor
  · intro h
    have h0 : (iterations - 1).toNat = 0 := by omega
    have h1 : ((1 : Int) - 1).toNat = 0 := rfl
    simp only [pbkdf2_bin, _bin, _bin_py3, codeBlock, h0, h1]
  · intro h
    exact pbkdf2_bin_neg data salt iterations keylen hashfunc encoding h

theorem claim_C3_witness :
    pbkdf2_bin (.bytes []) (.bytes []) 0 (-1) none utf8 =
      pbkdf2_bin (.bytes []) (.bytes []) 1 (-1) none utf8 ∧
    pbkdf2_bin (.bytes []) (.bytes []) 0 (-1) none utf8 = [] :=
  ⟨(claim_C3 (.bytes []) (.bytes []) 0 (-1) none utf8).1 (by decide),
   (claim_C3 (.bytes []) (.bytes []) 0 (-1) none utf8).2 (by decide)⟩

/-- C4: for every `keylen ≥ 0`, `iterations ≥ 1` and any password, salt and
hash, the returned byte string has length exactly `keylen`; for `keylen = 0`
it is empty and the block-index loop is empty (the block generator is never
invoked). -/
theorem claim_C4 (data salt : PyData) (iterations keylen : Int)
    (hashfunc : Option HashFunc) (encoding : Encoding)
    (hk : 0 ≤ keylen) (hit : 1 ≤ iterations) :
    (pbkdf2_bin data salt iterations keylen hashfunc encoding).length = keylen.toNat ∧
    (keylen = 0 →
      pbkdf2_bin data salt iterations keylen hashfunc encoding = [] ∧
      pyRange 1 (blocks_len keylen (hashfunc.getD sha1).digestSize) = []) := by
  refine ⟨pbkdf2_bin_length _ _ _ _ _ _ hk, fun h0 => ⟨?_, ?_⟩⟩
  · subst h0
    have hl := pbkdf2_bin_length data salt iterations 0 hashfunc encoding (by omega)
    exact List.length_eq_zero.mp (by simpa using hl)
  · subst h0
    have h2 : blocks_len 0 (hashfunc.getD sha1).digestSize = 1 := by
      unfold blocks_len
      simp
    rw [h2]
    unfold pyRange
    simp

theorem claim_C4_witness :
    (pbkdf2_bin (.bytes []) (.bytes []) 1 0 none utf8).length = (0 : Int).toNat ∧
    pbkdf2_bin (.bytes []) (.bytes []) 1 0 none utf8 = [] ∧
    pyRange 1 (blocks_len 0 ((none : Option HashFunc).getD sha1).digestSize) = [] :=
  ⟨(claim_C4 (.bytes []) (.bytes []) 1 0 none utf8 (by decide) (by decide)).1,
   ((claim_C4 (.bytes []) (.bytes []) 1 0 none utf8 (by decide) (by decide)).2 rfl).1,
   ((claim_C4 (.bytes []) (.bytes []) 1 0 none utf8 (by decide) (by decide)).2 rfl).2⟩

/-- C5: for fixed password, salt, iterations and hash, and all key lengths
`0 ≤ k1 ≤ k2`, the derived key of length `k1` is the byte-for-byte initial
segment (the first `k1` bytes) of the derived key of length `k2`. -/
theorem claim_C5 (data salt : PyData) (iterations k1 k2 : Int)
    (hashfunc : Option HashFunc) (encoding : Encoding)
    (h1 : 0 ≤ k1) (h12 : k1 ≤ k2) :
    pbkdf2_bin data salt iterations k1 hashfunc encoding =
      (pbkdf2_bin data salt iterations k2 hashfunc encoding).take k1.toNat := by
  have h2 : (0 : Int) ≤ k2 := le_trans h1 h12
  have hds := (hashfunc.getD sha1).digestSize_pos
  rw [pbkdf2_bin_eq data salt iterations k1 hashfunc encoding h1,
      pbkdf2_bin_eq data salt iterations k2 hashfunc encoding h2]
  rw [List.take_take]
  have hmin : min k1.toNat k2.toNat = k1.toNat := by omega
  rw [hmin]
  have hcle : (k1.toNat + (hashfunc.getD sha1).digestSize - 1) /
      (hashfunc.getD sha1).digestSize ≤
      (k2.toNat + (hashfunc.getD sha1).digestSize - 1) /
      (hashfunc.getD sha1).digestSize := by
    apply Nat.div_le_div_right
    omega
  have hsplit : List.range' 1 ((k2.toNat + (hashfunc.getD sha1).digestSize - 1) /
      (hashfunc.getD sha1).digestSize) =
      List.range' 1 ((k1.toNat + (hashfunc.getD sha1).digestSize - 1) /
        (hashfunc.getD sha1).digestSize) ++
      List.range' (1 + (k1.toNat + (hashfunc.getD sha1).digestSize - 1) /
        (hashfunc.getD sha1).digestSize)
        ((k2.toNat + (hashfunc.getD sha1).digestSize - 1) /
          (hashfunc.getD sha1).digestSize -
         (k1.toNat + (hashfunc.getD sha1).digestSize - 1) /
          (hashfunc.getD sha1).digestSize) := by
    rw [List.range'_append_1]
    congr 1
    omega
  rw [hsplit, List.map_append, List.flatten_append]
  rw [List.take_append_of_le_length]
  rw [flatten_map_length _ (hashfunc.getD sha1).digestSize
    (fun i => codeBlock_length _ _ (fun x => hmac_length _ _ _) _ _ _) _]
  rw [List.length_range']
  have := le_mul_ceil k1.toNat (hashfunc.getD sha1).digestSize hds
  omega

theorem claim_C5_witness :
    (0 : Int) ≤ 0 ∧ (0 : Int) ≤ 20 ∧
    pbkdf2_bin (.bytes []) (.bytes []) 1 0 none utf8 =
      (pbkdf2_bin (.bytes []) (.bytes []) 1 20 none utf8).take (0 : Int).toNat :=
  ⟨by decide, by decide,
   claim_C5 (.bytes []) (.bytes []) 1 0 20 none utf8 (by decide) (by decide)⟩

/-- C6: the derived key is a pure, deterministic function of
`(password, salt, iterations, keylen, hash, encoding)`: two calls whose
arguments are equal return byte-identical output (the embedding of
`pbkdf2_bin` is a mathematical function, mirroring the module's lack of any
mutable global state). -/
theorem claim_C6 (data salt data2 salt2 : PyData) (it k it2 k2 : Int)
    (hf hf2 : Option HashFunc) (e e2 : Encoding)
    (h1 : data = data2) (h2 : salt = salt2) (h3 : it = it2) (h4 : k = k2)
    (h5 : hf = hf2) (h6 : e = e2) :
    pbkdf2_bin data salt it k hf e = pbkdf2_bin data2 salt2 it2 k2 hf2 e2 := by
  subst h1
  subst h2
  subst h3
  subst h4
  subst h5
  subst h6
  rfl

theorem claim_C6_witness :
    pbkdf2_bin (.bytes [1]) (.bytes [2]) 3 4 none utf8 =
      pbkdf2_bin (.bytes [1]) (.bytes [2]) 3 4 none utf8 :=
  claim_C6 (.bytes [1]) (.bytes [2]) (.bytes [1]) (.bytes [2]) 3 4 3 4 none none
    utf8 utf8 (by decide) (by decide) (by decide) (by decide) rfl rfl

/-- C7 as stated is false: `pbkdf2_hex` does not pass its own `encoding`
argument through (line 70 hard-codes `encoding='utf-8'`).  With text data
`'é'` (code point 233) and `encoding='latin-1'`, `pbkdf2_hex` differs from
the hex encoding of `pbkdf2_bin` called with the same arguments. -/
theorem claim_C7_counterexample :
    pbkdf2_hex (.text [233]) (.bytes []) 1 20 none latin1 ≠
      hexEncode (pbkdf2_bin (.text [233]) (.bytes []) 1 20 none latin1) := by
  decide

/-- C7 amended: `pbkdf2_hex` returns exactly the lowercase hexadecimal
encoding of the bytes returned by `pbkdf2_bin` called with the same `data`,
`salt`, `iterations`, `keylen` and `hashfunc` but with the encoding forced to
`'utf-8'`, ignoring the `encoding` argument passed to `pbkdf2_hex`. -/
theorem claim_C7 (data salt : PyData) (iterations keylen : Int)
    (hashfunc : Option HashFunc) (encoding : Encoding) :
    pbkdf2_hex data salt iterations keylen hashfunc encoding =
      hexEncode (pbkdf2_bin data salt iterations keylen hashfunc utf8) := rfl

/-- C8 as stated is false: the derived key for
`(password="password", salt="salt", iterations=1, keylen=20)` under SHA-1 is
not the spec's 39-character literal `0c60c80f961f0e71f3a9b524af6012062fe037a`
(an odd-length hex string cannot be `keylen * 2 = 40` characters). -/
theorem claim_C8_counterexample :
    pbkdf2_hex (.text [112, 97, 115, 115, 119, 111, 114, 100])
        (.text [115, 97, 108, 116]) 1 20 none utf8 ≠
      [48, 99, 54, 48, 99, 56, 48, 102, 57, 54, 49, 102, 48, 101, 55, 49, 102,
       51, 97, 57, 98, 53, 50, 52, 97, 102, 54, 48, 49, 50, 48, 54, 50, 102,
       101, 48, 51, 55, 97] := by
  decide

/-- C8 amended: with SHA-1, `password="password"`, `salt="salt"`,
`iterations=1`, `keylen=20`, the hex-encoded derived key is the full
40-character RFC 6070 vector `0c60c80f961f0e71f3a9b524af6012062fe037a6`
(the spec's literal drops the final `6`), matching the module's own
self-test (line 148). -/
theorem claim_C8 :
    pbkdf2_hex (.text [112, 97, 115, 115, 119, 111, 114, 100])
        (.text [115, 97, 108, 116]) 1 20 none utf8 =
      [48, 99, 54, 48, 99, 56, 48, 102, 57, 54, 49, 102, 48, 101, 55, 49, 102,
       51, 97, 57, 98, 53, 50, 52, 97, 102, 54, 48, 49, 50, 48, 54, 50, 102,
       101, 48, 51, 55, 97, 54] := by
  decide

/-- C9: for every `iterations ≤ 1` (including 0 and negative values),
`pbkdf2_bin` raises no error and returns exactly the output of the same call
with `iterations = 1`, and each block is the single PRF output `U[1]` with no
XOR folding (the folding loop runs `max(0, iterations - 1)` times). -/
theorem claim_C9 (data salt : PyData) (iterations keylen : Int)
    (hashfunc : Option HashFunc) (encoding : Encoding) (block : Nat)
    (hit : iterations ≤ 1) :
    pbkdf2_bin data salt iterations keylen hashfunc encoding =
      pbkdf2_bin data salt 1 keylen hashfunc encoding ∧
    codeBlock (fun x => hmac (hashfunc.getD sha1) (toBytes encoding data) x)
        (toBytes encoding salt) block iterations =
      hmac (hashfunc.getD sha1) (toBytes encoding data)
        (toBytes encoding salt ++ _pack_int block) := by
  have h0 : (iterations - 1).toNat = 0 := by omega
  have h1 : ((1 : Int) - 1).toNat = 0 := rfl
  constructor
  · simp only [pbkdf2_bin, _bin, _bin_py3, codeBlock, h0, h1]
  · simp only [codeBlock, h0, innerLoop]

theorem claim_C9_witness :
    (0 : Int) ≤ 1 ∧
    (pbkdf2_bin (.bytes []) (.bytes []) 0 20 none utf8 =
       pbkdf2_bin (.bytes []) (.bytes []) 1 20 none utf8 ∧
     codeBlock (fun x => hmac sha1 [] x) [] 1 0 = hmac sha1 [] ([] ++ _pack_int 1)) :=
  ⟨by decide,
   (claim_C9 (.bytes []) (.bytes []) 0 20 none utf8 1 (by decide)).1,
   (claim_C9 (.bytes []) (.bytes []) 0 20 none utf8 1 (by decide)).2⟩

/-- C10: if both `data` and `salt` are raw byte strings (not text), the output
of `pbkdf2_bin` is independent of the `encoding` argument — encoding is
applied only to text-typed inputs (`can_encode` is false on bytes). -/
theorem claim_C10 (data salt : List Nat) (iterations keylen : Int)
    (hashfunc : Option HashFunc) (e1 e2 : Encoding) :
    pbkdf2_bin (.bytes data) (.bytes salt) iterations keylen hashfunc e1 =
      pbkdf2_bin (.bytes data) (.bytes salt) iterations keylen hashfunc e2 := rfl

end Pbkdf2
